import Mathlib

/-!
# rapid_mock: a synchronised two-display slideshow server

A shallow embedding of `src/main.go` and the properties of its playhead,
media catalog, render handlers and server-sent-event hub.

Conventions of the embedding

* A Go `string` is embedded as a Lean `String`.  The characters the program
  inspects (`.` and `/`) are ASCII, and on UTF-8 text the bytewise order used
  by Go coincides with the order by code point used by Lean.
* A Go `int` is embedded as an `Int` kept in the 64-bit two's-complement range
  by `wrapInt`; `%` is the truncated remainder `Int.tmod`.
* A `chan string` is a heap object: channels are named by a `ChanId`, the heap
  `State.chans` gives the capacity and the buffered messages of each one.
* `sseClients` (a `map[chan string]bool` whose values are always `true` and are
  never read) is embedded as the finite set of its keys.
* The mutexes `mu` and `sseMu` make each critical section atomic; every
  critical section is one function on `State` here.
* `log.Printf` and response headers have no effect on the state and are left out.
-/

namespace RapidMock

/-! ## Go primitives -/

/-- Width of the Go type `int` on the 64-bit platforms. -/
def intBits : Nat := 64

/-- Largest value of a Go `int`. -/
def maxInt : Int := 2 ^ (intBits - 1) - 1

/-- Smallest value of a Go `int`. -/
def minInt : Int := -(2 ^ (intBits - 1))

/-- Reduction of a mathematical integer to the two's-complement range of `int`. -/
def wrapInt (x : Int) : Int :=
  (x + 2 ^ (intBits - 1)) % 2 ^ intBits - 2 ^ (intBits - 1)

/-- The Go statement `x++` on an `int`: addition of one, wrapping on overflow. -/
def intInc (x : Int) : Int := wrapInt (x + 1)

/-- Run-time panics the handlers can raise. -/
inductive Panic where
  | divideByZero
  | indexOutOfRange
  deriving DecidableEq, Repr

/-- The Go expression `a % b` on `int`: it panics when `b` is zero and otherwise
truncates towards zero, so the result has the sign of the dividend. -/
def goMod (a b : Int) : Except Panic Int :=
  if b = 0 then .error .divideByZero else .ok (Int.tmod a b)

/-- The Go expression `s[i]` on a slice of strings: it panics unless `0 ≤ i < len(s)`. -/
def sliceIndex (s : List String) (i : Int) : Except Panic String :=
  if 0 ≤ i ∧ i < (s.length : Int) then
    match s.get? i.toNat with
    | some x => .ok x
    | none => .error .indexOutOfRange
  else .error .indexOutOfRange

/-- The scan of `filepath.Ext`: `rev` holds the bytes still to be visited, last
one first, and `acc` the bytes already passed, in their original order. -/
def extScan : List Char → List Char → List Char
  | [], _ => []
  | c :: rev, acc =>
    if c = '/' then []
    else if c = '.' then c :: acc
    else extScan rev (c :: acc)

/-- The library function `filepath.Ext`: the suffix of the last path element
that starts at its final dot, empty when that element has no dot. -/
def filepathExt (path : String) : String :=
  String.mk (extScan path.data.reverse [])

/-- The library function `sort.Strings`: the argument arranged in increasing order. -/
def sortStrings (l : List String) : List String :=
  l.insertionSort (fun a b => a ≤ b)

/-! ## Data model -/

/-- Name of a channel object on the heap. -/
abbrev ChanId := Nat

/-- A buffered `chan string`: its capacity and the messages waiting in it, oldest first. -/
structure Chan where
  cap : Nat
  buf : List String
  deriving DecidableEq, Repr

/-- The package-level variables of the program together with the channel heap. -/
structure State where
  currentIndex : Int
  filesA : List String
  filesB : List String
  sseClients : Finset ChanId
  chans : ChanId → Chan
  nextChan : ChanId

/-- An entry returned by `os.ReadDir`. -/
structure DirEntry where
  Name : String
  IsDir : Bool
  deriving DecidableEq, Repr

/-- The anonymous struct handed to `contentTmpl.Execute`. -/
structure ContentData where
  MediaSrc : String
  IsVideo : Bool
  deriving DecidableEq, Repr

/-- What a handler writes to its `http.ResponseWriter`: status code and body. -/
structure Response where
  status : Nat
  body : String
  deriving DecidableEq, Repr

/-! ## Channel operations -/

/-- The statement `select { case ch <- msg: default: }`: the message is
buffered when there is room and the statement does nothing otherwise. -/
def Chan.trySend (ch : Chan) (msg : String) : Chan :=
  if ch.buf.length < ch.cap then { ch with buf := ch.buf ++ [msg] } else ch

/-- The receive `msg := <-ch` when a message is waiting: the oldest message and
the channel without it.  On an empty channel the receive is not enabled. -/
def Chan.recv (ch : Chan) : Option (String × Chan) :=
  match ch.buf with
  | [] => none
  | m :: rest => some (m, { ch with buf := rest })

/-- The expression `make(chan string, cap)`: a fresh, empty channel on the heap. -/
def makeChan (cap : Nat) (st : State) : ChanId × State :=
  (st.nextChan,
   { st with
     chans := Function.update st.chans st.nextChan ⟨cap, []⟩
     nextChan := st.nextChan + 1 })

/-- One iteration of the loop of `broadcastSSE`, on the channel `c`. -/
def sendTo (message : String) (c : ChanId) (h : ChanId → Chan) : ChanId → Chan :=
  Function.update h c ((h c).trySend message)

instance sendTo_leftComm (message : String) : LeftCommutative (sendTo message) where
  left_comm a b h := by
    by_cases hab : a = b
    · subst hab; rfl
    · have hba : ¬ b = a := fun e => hab e.symm
      funext x
      by_cases hxa : x = a
      · subst hxa
        simp [sendTo, Function.update, hab, hba]
      · by_cases hxb : x = b
        · subst hxb
          simp [sendTo, Function.update, hab, hba]
        · simp [sendTo, Function.update, hxa, hxb, hab, hba]

/-! ## The program -/

/-- The function `isMedia` of `main.go`. -/
def isMedia (fileName : String) : Bool :=
  let ext := filepathExt fileName
  if ext = ".jpg" ∨ ext = ".png" ∨ ext = ".jpeg" then true
  else if ext = ".mp4" ∨ ext = ".webm" ∨ ext = ".ogg" then true
  else false

/-- The function `isVideo` of `main.go`. -/
def isVideo (fileName : String) : Bool :=
  let ext := filepathExt fileName
  if ext = ".mp4" ∨ ext = ".webm" ∨ ext = ".ogg" then true else false

/-- The filtering loop of `loadFiles`: the names kept so far, in listing order. -/
def loadFilesLoop (entries : List DirEntry) : List String :=
  entries.foldl
    (fun files entry =>
      if !entry.IsDir && isMedia entry.Name then files ++ [entry.Name] else files)
    []

/-- The function `loadFiles` of `main.go`.  The call `os.ReadDir(dir)` is the
parameter `readDir`, which gives the entries read and the error, if any. -/
def loadFiles (readDir : String → List DirEntry × Option String) (dir : String) :
    Except String (List String) :=
  match readDir dir with
  | (_, some err) => .error err
  | (entries, none) => .ok (sortStrings (loadFilesLoop entries))

/-- The function `broadcastSSE` of `main.go`: the non-blocking send is tried on
every registered channel, in the unspecified order of a map iteration. -/
def broadcastSSE (message : String) (st : State) : State :=
  { st with chans := Multiset.foldr (sendTo message) st.chans st.sseClients.val }

/-- The function `contentA` of `main.go`; the result is the data rendered by `contentTmpl`. -/
def contentA (st : State) : Except Panic ContentData := do
  let idx := st.currentIndex
  let i ← goMod idx (st.filesA.length : Int)
  let fileName ← sliceIndex st.filesA i
  let mediaSrc := "/static/a/" ++ fileName
  pure { MediaSrc := mediaSrc, IsVideo := isVideo fileName }

/-- The function `contentB` of `main.go`; the result is the data rendered by `contentTmpl`. -/
def contentB (st : State) : Except Panic ContentData := do
  let idx := st.currentIndex
  let i ← goMod idx (st.filesB.length : Int)
  let fileName ← sliceIndex st.filesB i
  let mediaSrc := "/static/b/" ++ fileName
  pure { MediaSrc := mediaSrc, IsVideo := isVideo fileName }

/-- The function `advanceHandler` of `main.go`, on a request with the given method. -/
def advanceHandler (method : String) (st : State) : Response × State :=
  if method ≠ "POST" then
    (⟨405, "Method Not Allowed\n"⟩, st)
  else
    let st1 := { st with currentIndex := intInc st.currentIndex }
    let st2 := broadcastSSE "mediaChanged" st1
    (⟨200, ""⟩, st2)

/-- Capacity of the channel created by `sseHandler`. -/
def messageChanCap : Nat := 10

/-- The registration `sseClients[messageChan] = true` under `sseMu`. -/
def registerClient (c : ChanId) (st : State) : State :=
  { st with sseClients := insert c st.sseClients }

/-- The deferred clean-up of `sseHandler`: `delete(sseClients, messageChan)` under `sseMu`. -/
def sseHandlerCleanup (c : ChanId) (st : State) : State :=
  { st with sseClients := st.sseClients.erase c }

/-- The start of `sseHandler`: when the writer cannot flush the request is
answered with 500 and nothing is registered; otherwise a channel of capacity
ten is created and registered, and the handler enters its loop with it. -/
def sseHandlerConnect (flusherOk : Bool) (st : State) : Except Response ChanId × State :=
  if !flusherOk then
    (.error ⟨500, "Streaming unsupported!\n"⟩, st)
  else
    let (messageChan, st1) := makeChan messageChanCap st
    (.ok messageChan, registerClient messageChan st1)

/-- The record written for one message by the loop of `sseHandler`. -/
def sseRecord (msg : String) : String :=
  "event: " ++ msg ++ "\n" ++ ("data: " ++ msg ++ "\n\n")

/-- One turn of the loop of `sseHandler` through `case msg := <-messageChan`:
the oldest message leaves the channel and its record is written.  The result
is `none` when the channel is empty, where the loop waits. -/
def sseHandlerRecv (c : ChanId) (st : State) : Option (String × String × State) :=
  match (st.chans c).recv with
  | none => none
  | some (msg, ch) =>
    some (msg, sseRecord msg, { st with chans := Function.update st.chans c ch })

/-- The start-up part of `main`: both catalogs are loaded and must be
non-empty; the other package variables have their zero values. -/
def main (readDir : String → List DirEntry × Option String) : Except String State :=
  match loadFiles readDir "./data/a" with
  | .error err => .error ("Error loading ./data/a: " ++ err)
  | .ok fa =>
    match loadFiles readDir "./data/b" with
    | .error err => .error ("Error loading ./data/b: " ++ err)
    | .ok fb =>
      if fa.length = 0 ∨ fb.length = 0 then
        .error "No files found in one of the directories."
      else
        .ok { currentIndex := 0, filesA := fa, filesB := fb, sseClients := ∅,
              chans := fun _ => ⟨0, []⟩, nextChan := 0 }

/-- The state after `n` successive `POST /advance` requests. -/
def advanceN : Nat → State → State
  | 0, st => st
  | n + 1, st => (advanceHandler "POST" (advanceN n st)).2

/-- A finite sequence of broadcasts, one label after another. -/
def broadcastAll (labels : List String) (st : State) : State :=
  labels.foldl (fun s label => broadcastSSE label s) st

/-- What holds of the hub in every state the program reaches: a registered
channel was allocated before, has the capacity given by `sseHandler`, and
holds no more messages than that. -/
def HubInv (st : State) : Prop :=
  ∀ c ∈ st.sseClients,
    c < st.nextChan ∧ (st.chans c).cap = messageChanCap ∧
      (st.chans c).buf.length ≤ messageChanCap

instance HubInv.decidable (st : State) : Decidable (HubInv st) := by
  unfold HubInv; infer_instance

/-- The two events in the life of one subscriber's queue. -/
inductive HubEv where
  | broadcast (label : String)
  | dequeue
  deriving DecidableEq, Repr

/-- One event seen from the subscriber with channel `c`: a broadcast runs
`broadcastSSE`; a dequeue is one turn of the subscriber's loop, which adds the
message taken to the list of delivered labels and waits when the queue is empty. -/
def hubStep (c : ChanId) (acc : State × List String) (ev : HubEv) : State × List String :=
  match ev with
  | .broadcast label => (broadcastSSE label acc.1, acc.2)
  | .dequeue =>
    match sseHandlerRecv c acc.1 with
    | none => acc
    | some (msg, _, st) => (st, acc.2 ++ [msg])

/-- The final state and the labels delivered, in order, over a sequence of events. -/
def runHub (c : ChanId) (evs : List HubEv) (st : State) : State × List String :=
  evs.foldl (hubStep c) (st, [])

/-- The labels broadcast by a sequence of events, in order. -/
def broadcastLabels : List HubEv → List String
  | [] => []
  | .broadcast label :: evs => label :: broadcastLabels evs
  | .dequeue :: evs => broadcastLabels evs

/-- The scenario before any connection: playhead 0 and the two catalogs. -/
def scenarioInit : State :=
  { currentIndex := 0, filesA := ["a.jpg", "b.mp4"], filesB := ["x.png"],
    sseClients := ∅, chans := fun _ => ⟨0, []⟩, nextChan := 0 }

/-- The scenario with one stream client connected. -/
def scenarioConnected : State := (sseHandlerConnect true scenarioInit).2

/-- A state whose only subscriber has a full queue. -/
def scenarioFull : State :=
  { scenarioConnected with
    chans := fun _ => ⟨10, List.replicate 10 "mediaChanged"⟩ }

/-- The connected scenario with the playhead at the largest `int`, the value
it has after `2 ^ 63 - 1` advances from 0. -/
def scenarioMaxInt : State :=
  { scenarioConnected with currentIndex := 9223372036854775807 }

/-- A state with three items in catalog A and playhead 0. -/
def scenarioThree : State :=
  { scenarioInit with filesA := ["a.jpg", "b.mp4", "c.png"] }

/-- The media extensions of the allow-list: still images, then videos. -/
def mediaExts : List String := [".jpg", ".jpeg", ".png", ".mp4", ".webm", ".ogg"]

/-- The extension of a name as the specification words it: the suffix that
starts at the last dot of the name, empty when the name has no dot. -/
def lastDotSuffix (name : String) : String :=
  if '.' ∈ name.data then
    String.mk ('.' :: (name.data.reverse.takeWhile (fun ch => ch != '.')).reverse)
  else ""

/-- The entries the specification keeps: not a directory, extension in the allow-list. -/
def keptBySpec (entry : DirEntry) : Bool :=
  !entry.IsDir && decide (lastDotSuffix entry.Name ∈ mediaExts)

/-- A file system for the scenario: two readable directories, nothing else. -/
def scenarioReadDir (dir : String) : List DirEntry × Option String :=
  if dir = "./data/a" then
    ([⟨"b.mp4", false⟩, ⟨"notes.txt", false⟩, ⟨"a.jpg", false⟩, ⟨"old.png", true⟩,
      ⟨"A.JPG", false⟩], none)
  else if dir = "./data/b" then ([⟨"x.png", false⟩], none)
  else ([], some "no such file or directory")

/-- The requests and loop turns that change the state of the running server. -/
inductive Action where
  | advance (method : String)
  | connect (flusherOk : Bool)
  | recv (c : ChanId)
  | disconnect (c : ChanId)
  deriving DecidableEq, Repr

/-- The effect of one action on the state. -/
def step (st : State) (a : Action) : State :=
  match a with
  | .advance method => (advanceHandler method st).2
  | .connect flusherOk => (sseHandlerConnect flusherOk st).2
  | .recv c =>
    match sseHandlerRecv c st with
    | none => st
    | some (_, _, st1) => st1
  | .disconnect c => sseHandlerCleanup c st

/-- The states the server can be in: those that follow a successful start-up
by finitely many actions. -/
def Reachable (st : State) : Prop :=
  ∃ readDir s0 acts, main readDir = .ok s0 ∧ st = List.foldl step s0 acts

/-! ## The hub -/

theorem foldr_sendTo_apply (message : String) (h : ChanId → Chan) (s : Finset ChanId)
    (c : ChanId) :
    Multiset.foldr (sendTo message) h s.val c
      = if c ∈ s then (h c).trySend message else h c := by
  induction s using Finset.induction_on with
  | empty => simp
  | insert hns ih =>
    rename_i a s
    rw [Finset.insert_val_of_not_mem hns, Multiset.foldr_cons]
    by_cases hca : c = a
    · subst hca
      have hfix : Multiset.foldr (sendTo message) h s.val c = h c := by
        rw [ih]; simp [hns]
      simp [sendTo, hfix]
    · simp [sendTo, Function.update, hca, ih]

theorem broadcastSSE_chans (message : String) (st : State) (c : ChanId) :
    (broadcastSSE message st).chans c
      = if c ∈ st.sseClients then (st.chans c).trySend message else st.chans c := by
  simp [broadcastSSE, foldr_sendTo_apply]

theorem broadcastSSE_sseClients (message : String) (st : State) :
    (broadcastSSE message st).sseClients = st.sseClients := rfl

theorem broadcastAll_sseClients (labels : List String) (st : State) :
    (broadcastAll labels st).sseClients = st.sseClients := by
  induction labels generalizing st with
  | nil => rfl
  | cons l ls ih =>
    simp only [broadcastAll, List.foldl_cons] at ih ⊢
    rw [ih, broadcastSSE_sseClients]

theorem trySend_cap (ch : Chan) (msg : String) : (ch.trySend msg).cap = ch.cap := by
  unfold Chan.trySend; split <;> rfl

theorem trySend_length_le (ch : Chan) (msg : String) (h : ch.buf.length ≤ ch.cap) :
    (ch.trySend msg).buf.length ≤ ch.cap := by
  unfold Chan.trySend
  split
  · simp; omega
  · exact h

theorem HubInv_broadcastSSE (message : String) (st : State) (h : HubInv st) :
    HubInv (broadcastSSE message st) := by
  intro c hc
  have hc2 : c ∈ st.sseClients := hc
  obtain ⟨h1, h2, h3⟩ := h c hc2
  rw [broadcastSSE_chans, if_pos hc2, trySend_cap]
  refine ⟨h1, h2, ?_⟩
  have := trySend_length_le (st.chans c) message (by rw [h2]; exact h3)
  rw [h2] at this
  exact this

/-- C1: `broadcastSSE label` is a total function, so it always completes; for
every registered subscriber whose channel has the capacity 10 given by
`sseHandler`, it appends the label at the tail of the queue when the queue
holds fewer than 10 labels, and leaves the channel exactly as it was when the
queue already holds 10 labels. -/
theorem broadcastSSE_enqueue_or_drop (st : State) (label : String) (c : ChanId)
    (hc : c ∈ st.sseClients) (hcap : (st.chans c).cap = messageChanCap) :
    ((st.chans c).buf.length < 10 →
        (broadcastSSE label st).chans c = ⟨10, (st.chans c).buf ++ [label]⟩) ∧
      (10 ≤ (st.chans c).buf.length →
        (broadcastSSE label st).chans c = st.chans c) := by
  rw [broadcastSSE_chans, if_pos hc]
  unfold Chan.trySend
  rw [hcap]
  simp only [messageChanCap]
  constructor
  · intro hlt
    rw [if_pos hlt]
  · intro hge
    rw [if_neg (by omega)]

theorem broadcastSSE_enqueue_or_drop_witness :
    (0 : ChanId) ∈ scenarioConnected.sseClients ∧
      (scenarioConnected.chans 0).cap = messageChanCap ∧
      (broadcastSSE "mediaChanged" scenarioConnected).chans 0 = ⟨10, ["mediaChanged"]⟩ ∧
      (scenarioFull.chans 0).buf.length = 10 ∧
      (broadcastSSE "mediaChanged" scenarioFull).chans 0 = scenarioFull.chans 0 :=
  ⟨by decide, by decide,
   (broadcastSSE_enqueue_or_drop scenarioConnected "mediaChanged" 0 (by decide)
      (by decide)).1 (by decide),
   by decide,
   (broadcastSSE_enqueue_or_drop scenarioFull "mediaChanged" 0 (by decide)
      (by decide)).2 (by decide)⟩

theorem sseHandlerCleanup_absent (c : ChanId) (st : State) (h : c ∉ st.sseClients) :
    sseHandlerCleanup c st = st := by
  cases st
  simp only [sseHandlerCleanup] at h ⊢
  rw [Finset.erase_eq_of_not_mem h]

/-- C5: registering a subscriber `s` that is not in the registry, running any
finite sequence of broadcasts and unregistering `s` gives back the registry as
it was before, hence its size; unregistering a subscriber that is not
registered changes nothing, and unregistering twice is unregistering once. -/
theorem register_broadcast_cleanup_restores (st : State) (s : ChanId)
    (labels : List String) (hs : s ∉ st.sseClients) :
    (sseHandlerCleanup s (broadcastAll labels (registerClient s st))).sseClients
        = st.sseClients ∧
      (sseHandlerCleanup s (broadcastAll labels (registerClient s st))).sseClients.card
        = st.sseClients.card ∧
      sseHandlerCleanup s st = st ∧
      ∀ t : State, sseHandlerCleanup s (sseHandlerCleanup s t) = sseHandlerCleanup s t := by
  have h1 : (sseHandlerCleanup s (broadcastAll labels (registerClient s st))).sseClients
      = st.sseClients := by
    show (broadcastAll labels (registerClient s st)).sseClients.erase s = st.sseClients
    rw [broadcastAll_sseClients]
    show (insert s st.sseClients).erase s = st.sseClients
    exact Finset.erase_insert hs
  refine ⟨h1, by rw [h1], sseHandlerCleanup_absent s st hs, ?_⟩
  intro t
  apply sseHandlerCleanup_absent
  simp [sseHandlerCleanup]

theorem register_broadcast_cleanup_restores_witness :
    (1 : ChanId) ∉ scenarioConnected.sseClients ∧
      (sseHandlerCleanup 1
          (broadcastAll ["mediaChanged", "mediaChanged"]
            (registerClient 1 scenarioConnected))).sseClients
        = scenarioConnected.sseClients :=
  ⟨by decide,
   (register_broadcast_cleanup_restores scenarioConnected 1
      ["mediaChanged", "mediaChanged"] (by decide)).1⟩

/-- C6: `broadcastSSE` leaves the queue of every channel outside the registry
as it was, changes neither the registry nor the playhead (nor the catalogs),
and a subscriber connected afterwards gets a fresh channel with an empty queue,
which therefore does not hold the label broadcast before. -/
theorem broadcastSSE_frame (st : State) (label : String) :
    (∀ c, c ∉ st.sseClients → (broadcastSSE label st).chans c = st.chans c) ∧
      (broadcastSSE label st).sseClients = st.sseClients ∧
      (broadcastSSE label st).currentIndex = st.currentIndex ∧
      (broadcastSSE label st).filesA = st.filesA ∧
      (broadcastSSE label st).filesB = st.filesB ∧
      (sseHandlerConnect true (broadcastSSE label st)).1 = .ok st.nextChan ∧
      st.nextChan ∈ (sseHandlerConnect true (broadcastSSE label st)).2.sseClients ∧
      (sseHandlerConnect true (broadcastSSE label st)).2.chans st.nextChan = ⟨10, []⟩ ∧
      label ∉ ((sseHandlerConnect true (broadcastSSE label st)).2.chans st.nextChan).buf := by
  have hch : (sseHandlerConnect true (broadcastSSE label st)).2.chans st.nextChan
      = ⟨10, []⟩ := by
    simp [sseHandlerConnect, makeChan, registerClient, broadcastSSE, messageChanCap]
  refine ⟨?_, rfl, rfl, rfl, rfl, rfl, ?_, hch, ?_⟩
  · intro c hc
    rw [broadcastSSE_chans, if_neg hc]
  · simp [sseHandlerConnect, makeChan, registerClient, broadcastSSE]
  · rw [hch]; simp

theorem broadcastSSE_frame_witness :
    (1 : ChanId) ∉ scenarioConnected.sseClients ∧
      (broadcastSSE "mediaChanged" scenarioConnected).chans 1 = scenarioConnected.chans 1 :=
  ⟨by decide, (broadcastSSE_frame scenarioConnected "mediaChanged").1 1 (by decide)⟩

/-! ## Order of delivery -/

theorem trySend_buf (ch : Chan) (msg : String) :
    (ch.trySend msg).buf = ch.buf ∨ (ch.trySend msg).buf = ch.buf ++ [msg] := by
  unfold Chan.trySend
  split
  · right; rfl
  · left; rfl

theorem hubStep_sublist (c : ChanId) (acc : State × List String) (ev : HubEv)
    (sent : List String) (h : (acc.2 ++ (acc.1.chans c).buf).Sublist sent) :
    ((hubStep c acc ev).2 ++ ((hubStep c acc ev).1.chans c).buf).Sublist
      (sent ++ broadcastLabels [ev]) := by
  cases ev with
  | broadcast label =>
    simp only [hubStep, broadcastLabels]
    have hb : ((broadcastSSE label acc.1).chans c).buf = (acc.1.chans c).buf ∨
        ((broadcastSSE label acc.1).chans c).buf = (acc.1.chans c).buf ++ [label] := by
      rw [broadcastSSE_chans]
      split
      · exact trySend_buf _ _
      · left; rfl
    rcases hb with hb | hb
    · rw [hb]
      exact h.trans (List.sublist_append_left _ _)
    · rw [hb, ← List.append_assoc]
      exact List.Sublist.append h (List.Sublist.refl _)
  | dequeue =>
    simp only [hubStep, broadcastLabels, List.append_nil]
    unfold sseHandlerRecv Chan.recv
    cases hq : (acc.1.chans c).buf with
    | nil =>
      simp only []
      rw [hq]
      rw [hq] at h
      exact h
    | cons m rest =>
      simp only [Function.update_same]
      rw [hq] at h
      simpa using h

theorem broadcastLabels_append (xs ys : List HubEv) :
    broadcastLabels (xs ++ ys) = broadcastLabels xs ++ broadcastLabels ys := by
  induction xs with
  | nil => rfl
  | cons e es ih =>
    cases e <;> simp [broadcastLabels, ih]

theorem foldl_hubStep_sublist (c : ChanId) (evs : List HubEv) (acc : State × List String)
    (sent : List String) (h : (acc.2 ++ (acc.1.chans c).buf).Sublist sent) :
    ((evs.foldl (hubStep c) acc).2 ++ ((evs.foldl (hubStep c) acc).1.chans c).buf).Sublist
      (sent ++ broadcastLabels evs) := by
  induction evs generalizing acc sent with
  | nil => simpa [broadcastLabels] using h
  | cons e es ih =>
    have hstep := hubStep_sublist c acc e sent h
    have := ih (hubStep c acc e) (sent ++ broadcastLabels [e]) hstep
    rw [List.append_assoc, ← broadcastLabels_append] at this
    simpa using this

theorem hubStep_unregistered (c : ChanId) (acc : State × List String) (ev : HubEv)
    (h : c ∉ acc.1.sseClients) :
    c ∉ (hubStep c acc ev).1.sseClients ∧
      (hubStep c acc ev).2 ++ ((hubStep c acc ev).1.chans c).buf
        = acc.2 ++ (acc.1.chans c).buf := by
  cases ev with
  | broadcast label =>
    simp only [hubStep]
    rw [broadcastSSE_chans, if_neg h]
    exact ⟨h, rfl⟩
  | dequeue =>
    simp only [hubStep]
    unfold sseHandlerRecv Chan.recv
    cases hq : (acc.1.chans c).buf with
    | nil =>
      simp only []
      rw [hq]
      exact ⟨h, rfl⟩
    | cons m rest =>
      simp only [Function.update_same]
      exact ⟨h, by simp⟩

theorem foldl_hubStep_unregistered (c : ChanId) (evs : List HubEv)
    (acc : State × List String) (h : c ∉ acc.1.sseClients) :
    (evs.foldl (hubStep c) acc).2 ++ ((evs.foldl (hubStep c) acc).1.chans c).buf
      = acc.2 ++ (acc.1.chans c).buf := by
  induction evs generalizing acc with
  | nil => rfl
  | cons e es ih =>
    rw [List.foldl_cons, ih _ (hubStep_unregistered c acc e h).1,
      (hubStep_unregistered c acc e h).2]

/-- C7: from the moment a subscriber is connected by `sseHandler`, over every
finite interleaving of broadcasts and of dequeues by its loop, the labels it
has dequeued, followed by those still waiting in its queue, form a subsequence
of the labels broadcast, in broadcast order; so do the dequeued labels alone;
and whatever is broadcast or taken from the queue after the subscriber was
unregistered, the labels taken stay a subsequence of the labels broadcast
while it was registered. -/
theorem delivered_sublist_broadcast (st : State) (evs : List HubEv) :
    ((runHub st.nextChan evs (sseHandlerConnect true st).2).2 ++
        ((runHub st.nextChan evs (sseHandlerConnect true st).2).1.chans st.nextChan).buf).Sublist
        (broadcastLabels evs) ∧
      (runHub st.nextChan evs (sseHandlerConnect true st).2).2.Sublist
        (broadcastLabels evs) ∧
      ∀ later : List HubEv,
        (later.foldl (hubStep st.nextChan)
          (sseHandlerCleanup st.nextChan
              (runHub st.nextChan evs (sseHandlerConnect true st).2).1,
            (runHub st.nextChan evs (sseHandlerConnect true st).2).2)).2.Sublist
          (broadcastLabels evs) := by
  have h0 : ((sseHandlerConnect true st).2.chans st.nextChan).buf = [] := by
    simp [sseHandlerConnect, makeChan, registerClient]
  have h := foldl_hubStep_sublist st.nextChan evs ((sseHandlerConnect true st).2, []) []
    (by simp [h0])
  simp only [List.nil_append] at h
  refine ⟨h, (List.sublist_append_left _ _).trans h, ?_⟩
  intro later
  have hl := foldl_hubStep_unregistered st.nextChan later
    (sseHandlerCleanup st.nextChan
        (runHub st.nextChan evs (sseHandlerConnect true st).2).1,
      (runHub st.nextChan evs (sseHandlerConnect true st).2).2)
    (by simp [sseHandlerCleanup])
  exact (List.sublist_append_left _ _).trans (hl ▸ h)

/-! ## The playhead -/

theorem wrapInt_eq (x : Int) :
    wrapInt x = (x + 9223372036854775808) % 18446744073709551616 - 9223372036854775808 := by
  simp only [wrapInt, intBits]
  norm_num

theorem wrapInt_of_inRange (x : Int) (h0 : -9223372036854775808 ≤ x)
    (h1 : x < 9223372036854775808) : wrapInt x = x := by
  rw [wrapInt_eq]; omega

theorem wrapInt_succ (x : Int) : wrapInt (wrapInt x + 1) = wrapInt (x + 1) := by
  simp only [wrapInt_eq]; omega

theorem advanceHandler_post (st : State) :
    advanceHandler "POST" st
      = (⟨200, ""⟩, broadcastSSE "mediaChanged"
          { st with currentIndex := intInc st.currentIndex }) := by
  simp [advanceHandler]

theorem advanceN_currentIndex (st : State) (h0 : st.currentIndex = 0) (n : Nat) :
    (advanceN n st).currentIndex = wrapInt n := by
  induction n with
  | zero => simp [advanceN, h0, wrapInt_eq]
  | succ k ih =>
    simp only [advanceN, advanceHandler_post]
    show intInc (advanceN k st).currentIndex = wrapInt ((k + 1 : Nat) : Int)
    rw [ih, intInc, wrapInt_succ]
    push_cast
    rfl

theorem advanceN_filesA (st : State) (n : Nat) : (advanceN n st).filesA = st.filesA := by
  induction n with
  | zero => rfl
  | succ k ih => simp only [advanceN, advanceHandler_post]; exact ih

theorem advanceN_filesB (st : State) (n : Nat) : (advanceN n st).filesB = st.filesB := by
  induction n with
  | zero => rfl
  | succ k ih => simp only [advanceN, advanceHandler_post]; exact ih

theorem advanceN_small (st : State) (h0 : st.currentIndex = 0) (n : Nat)
    (hn : n < 2 ^ 63) : (advanceN n st).currentIndex = n := by
  rw [advanceN_currentIndex st h0]
  apply wrapInt_of_inRange
  · omega
  · have : (n : Int) < ((2 ^ 63 : Nat) : Int) := by exact_mod_cast hn
    simpa using this

/-- C2, as the code has it: for every `N` below `2 ^ 63`, `N` successful
advances from playhead 0 leave the playhead at `N`; each of these advances
raises it by exactly 1, so the values read along the way never decrease. -/
theorem playhead_after_advances (st : State) (N : Nat) (h0 : st.currentIndex = 0)
    (hN : N < 2 ^ 63) :
    (advanceN N st).currentIndex = N ∧
      (∀ M, M < N →
        (advanceN (M + 1) st).currentIndex = (advanceN M st).currentIndex + 1) ∧
      (∀ M M2, M ≤ M2 → M2 ≤ N →
        (advanceN M st).currentIndex ≤ (advanceN M2 st).currentIndex) := by
  refine ⟨advanceN_small st h0 N hN, ?_, ?_⟩
  · intro M hM
    rw [advanceN_small st h0 M (by omega), advanceN_small st h0 (M + 1) (by omega)]
    push_cast; rfl
  · intro M M2 h1 h2
    rw [advanceN_small st h0 M (by omega), advanceN_small st h0 M2 (by omega)]
    exact_mod_cast h1

theorem playhead_after_advances_witness :
    scenarioInit.currentIndex = 0 ∧ (advanceN 3 scenarioInit).currentIndex = (3 : Nat) :=
  ⟨rfl, (playhead_after_advances scenarioInit 3 rfl (by decide)).1⟩

/-- C2 fails as stated: after `2 ^ 63` advances from 0 the 64-bit playhead has
wrapped to `-2 ^ 63`, which is not the number of advances, and the last advance
made the value read smaller. -/
theorem playhead_wraps_at_two_pow_63 :
    scenarioInit.currentIndex = 0 ∧
      (advanceN (2 ^ 63) scenarioInit).currentIndex = -9223372036854775808 ∧
      (advanceN (2 ^ 63) scenarioInit).currentIndex ≠ ((2 ^ 63 : Nat) : Int) ∧
      (advanceN (2 ^ 63) scenarioInit).currentIndex
        < (advanceN (2 ^ 63 - 1) scenarioInit).currentIndex := by
  have h : (advanceN (2 ^ 63) scenarioInit).currentIndex = -9223372036854775808 := by
    rw [advanceN_currentIndex scenarioInit rfl, wrapInt_eq]; decide
  have h2 : (advanceN (2 ^ 63 - 1) scenarioInit).currentIndex = 9223372036854775807 := by
    rw [advanceN_currentIndex scenarioInit rfl, wrapInt_eq]; decide
  refine ⟨rfl, h, ?_, ?_⟩
  · rw [h]; decide
  · rw [h, h2]; decide

/-! ## The media catalog -/

theorem extScan_eq (rev acc : List Char) :
    extScan rev acc
      = if '/' ∈ rev.takeWhile (fun ch => ch != '.') then []
        else if '.' ∈ rev then
          '.' :: ((rev.takeWhile (fun ch => ch != '.')).reverse ++ acc)
        else [] := by
  induction rev generalizing acc with
  | nil => simp [extScan]
  | cons c r ih =>
    by_cases hs : c = '/'
    · subst hs
      simp [extScan, List.takeWhile]
    · by_cases hd : c = '.'
      · subst hd
        simp [extScan, List.takeWhile]
      · have hd2 : (c != '.') = true := by simpa using hd
        have hs2 : ¬ '/' = c := fun e => hs e.symm
        have hd3 : ¬ '.' = c := fun e => hd e.symm
        simp only [extScan, if_neg hs, if_neg hd, ih, List.takeWhile, hd2, List.mem_cons,
          hs2, hd3, false_or, List.reverse_cons, List.append_assoc, List.singleton_append]

theorem filepathExt_mem_iff (name : String) (exts : List String)
    (hne : "" ∉ exts) (hsl : ∀ e ∈ exts, '/' ∉ e.data) :
    filepathExt name ∈ exts ↔ lastDotSuffix name ∈ exts := by
  unfold filepathExt lastDotSuffix
  rw [extScan_eq]
  simp only [List.append_nil, List.mem_reverse]
  by_cases hs : '/' ∈ name.data.reverse.takeWhile (fun ch => ch != '.')
  · rw [if_pos hs]
    constructor
    · intro h; exact absurd h hne
    · intro h
      exfalso
      by_cases hd : '.' ∈ name.data
      · rw [if_pos hd] at h
        have := hsl _ h
        apply this
        simp only [List.mem_cons, List.mem_reverse]
        right; exact hs
      · rw [if_neg hd] at h
        exact hne h
  · rw [if_neg hs]
    by_cases hd : '.' ∈ name.data
    · rw [if_pos hd, if_pos hd]
    · rw [if_neg hd, if_neg hd]

theorem isMedia_iff (name : String) :
    isMedia name = true ↔ lastDotSuffix name ∈ mediaExts := by
  rw [← filepathExt_mem_iff name mediaExts (by decide) (by decide)]
  simp only [isMedia, mediaExts, List.mem_cons, List.mem_singleton, List.not_mem_nil, or_false]
  by_cases h1 : filepathExt name = ".jpg" ∨ filepathExt name = ".png"
      ∨ filepathExt name = ".jpeg"
  · simp only [if_pos h1, true_iff]; tauto
  · by_cases h2 : filepathExt name = ".mp4" ∨ filepathExt name = ".webm"
        ∨ filepathExt name = ".ogg"
    · simp only [if_neg h1, if_pos h2, true_iff]; tauto
    · simp only [if_neg h1, if_neg h2]
      constructor
      · intro h; cases h
      · intro h; exfalso; tauto

theorem keptBySpec_eq (entry : DirEntry) :
    keptBySpec entry = (!entry.IsDir && isMedia entry.Name) := by
  unfold keptBySpec
  congr 1
  by_cases h : isMedia entry.Name = true
  · rw [h]; exact decide_eq_true ((isMedia_iff _).mp h)
  · have h2 : isMedia entry.Name = false := by simpa using h
    rw [h2]
    exact decide_eq_false (fun hm => h ((isMedia_iff _).mpr hm))

theorem foldl_loadFiles (entries : List DirEntry) (acc : List String) :
    entries.foldl
        (fun files entry =>
          if (!entry.IsDir && isMedia entry.Name) = true then files ++ [entry.Name] else files)
        acc
      = acc ++ (entries.filter keptBySpec).map DirEntry.Name := by
  induction entries generalizing acc with
  | nil => simp
  | cons e es ih =>
    rw [List.foldl_cons, ih]
    by_cases hk : (!e.IsDir && isMedia e.Name) = true
    · have hk2 : keptBySpec e = true := by rw [keptBySpec_eq]; exact hk
      simp [hk, hk2, List.filter_cons]
    · have hk2 : keptBySpec e = false := by
        rw [keptBySpec_eq]; simpa using hk
      simp [hk, hk2, List.filter_cons]

theorem loadFilesLoop_eq (entries : List DirEntry) :
    loadFilesLoop entries = (entries.filter keptBySpec).map DirEntry.Name := by
  unfold loadFilesLoop
  rw [foldl_loadFiles]; rfl

theorem sortStrings_sorted (l : List String) :
    (sortStrings l).Sorted (fun a b => a ≤ b) :=
  List.sorted_insertionSort _ l

theorem sortStrings_perm (l : List String) : (sortStrings l).Perm l :=
  List.perm_insertionSort _ l

theorem sortStrings_unique (l r : List String) (hs : r.Sorted (fun a b => a ≤ b))
    (hp : r.Perm l) : r = sortStrings l :=
  List.eq_of_perm_of_sorted (hp.trans (sortStrings_perm l).symm) hs (sortStrings_sorted l)

/-- C8: when the directory listing is read without error, `loadFiles` returns
a list that is in ascending order and is a rearrangement of the names of
exactly those entries that are not directories and whose extension (the suffix
from the last dot) is `.jpg`, `.jpeg`, `.png`, `.mp4`, `.webm` or `.ogg`; it is
the only list with these two properties.  When the listing comes with an error,
`loadFiles` returns that error and no list. -/
theorem loadFiles_sorted_filter (readDir : String → List DirEntry × Option String)
    (dir : String) :
    (∀ entries, readDir dir = (entries, none) →
        ∃ files, loadFiles readDir dir = .ok files ∧
          files.Sorted (fun a b => a ≤ b) ∧
          files.Perm ((entries.filter keptBySpec).map DirEntry.Name) ∧
          (∀ name, name ∈ files ↔
            ∃ entry ∈ entries, entry.Name = name ∧ entry.IsDir = false ∧
              lastDotSuffix name ∈ mediaExts) ∧
          ∀ other : List String, other.Sorted (fun a b => a ≤ b) →
            other.Perm ((entries.filter keptBySpec).map DirEntry.Name) → other = files) ∧
      (∀ entries err, readDir dir = (entries, some err) →
        loadFiles readDir dir = .error err) := by
  constructor
  · intro entries h
    refine ⟨sortStrings (loadFilesLoop entries), ?_, sortStrings_sorted _, ?_, ?_, ?_⟩
    · simp [loadFiles, h]
    · rw [← loadFilesLoop_eq]; exact sortStrings_perm _
    · intro name
      rw [(sortStrings_perm _).mem_iff, loadFilesLoop_eq]
      simp only [List.mem_map, List.mem_filter, keptBySpec, Bool.and_eq_true,
        Bool.not_eq_true', decide_eq_true_eq]
      constructor
      · rintro ⟨e, ⟨he, hd, hm⟩, rfl⟩
        exact ⟨e, he, rfl, hd, hm⟩
      · rintro ⟨e, he, rfl, hd, hm⟩
        exact ⟨e, ⟨he, hd, hm⟩, rfl⟩
    · intro other hs hp
      rw [← loadFilesLoop_eq] at hp
      exact sortStrings_unique _ _ hs hp
  · intro entries err h
    simp [loadFiles, h]

theorem loadFiles_sorted_filter_witness :
    scenarioReadDir "./data/a"
        = ([⟨"b.mp4", false⟩, ⟨"notes.txt", false⟩, ⟨"a.jpg", false⟩, ⟨"old.png", true⟩,
            ⟨"A.JPG", false⟩], none) ∧
      (∃ files, loadFiles scenarioReadDir "./data/a" = .ok files ∧
        files.Sorted (fun a b => a ≤ b) ∧
        files.Perm
          ((List.filter keptBySpec
            [⟨"b.mp4", false⟩, ⟨"notes.txt", false⟩, ⟨"a.jpg", false⟩, ⟨"old.png", true⟩,
              ⟨"A.JPG", false⟩]).map DirEntry.Name)) ∧
      (List.filter keptBySpec
          [⟨"b.mp4", false⟩, ⟨"notes.txt", false⟩, ⟨"a.jpg", false⟩, ⟨"old.png", true⟩,
            ⟨"A.JPG", false⟩]).map DirEntry.Name = ["b.mp4", "a.jpg"] ∧
      loadFiles scenarioReadDir "./data/c" = .error "no such file or directory" :=
  ⟨by decide,
   ((loadFiles_sorted_filter scenarioReadDir "./data/a").1 _ (by decide)).imp
     (fun _ h => ⟨h.1, h.2.1, h.2.2.1⟩),
   by decide,
   (loadFiles_sorted_filter scenarioReadDir "./data/c").2 [] _ (by decide)⟩

/-! ## The render handlers -/

theorem sliceIndex_natCast (s : List String) (k : Nat) (name : String)
    (h : s.get? k = some name) : sliceIndex s (k : Int) = .ok name := by
  have hk : k < s.length := by
    by_contra hge
    rw [List.get?_eq_none.mpr (by omega)] at h
    cases h
  have hcond : 0 ≤ (k : Int) ∧ (k : Int) < (s.length : Int) :=
    ⟨Int.ofNat_nonneg k, by exact_mod_cast hk⟩
  simp only [sliceIndex, if_pos hcond, Int.toNat_ofNat, h]

theorem goMod_natCast (n k : Nat) (hk : k ≠ 0) :
    goMod (n : Int) (k : Int) = .ok ((n % k : Nat) : Int) := by
  have hk2 : ¬ ((k : Int) = 0) := by exact_mod_cast hk
  simp only [goMod, if_neg hk2]
  rw [Int.ofNat_tmod]

theorem get?_mod_of_ne_nil (s : List String) (n : Nat) (h : s ≠ []) :
    ∃ name, s.get? (n % s.length) = some name := by
  have hpos : 0 < s.length := List.length_pos.mpr h
  have hlt : n % s.length < s.length := Nat.mod_lt n hpos
  exact ⟨s.get ⟨n % s.length, hlt⟩, List.get?_eq_get hlt⟩

theorem contentA_of_natCast (st : State) (n : Nat) (name : String)
    (hidx : st.currentIndex = n)
    (hget : st.filesA.get? (n % st.filesA.length) = some name) :
    contentA st = .ok ⟨"/static/a/" ++ name, isVideo name⟩ := by
  have hlen : st.filesA.length ≠ 0 := by
    intro h0
    rw [List.get?_eq_none.mpr (by omega)] at hget
    cases hget
  unfold contentA
  simp only [hidx, goMod_natCast n _ hlen, sliceIndex_natCast _ _ _ hget, bind, Except.bind,
    pure, Except.pure]

theorem contentB_of_natCast (st : State) (n : Nat) (name : String)
    (hidx : st.currentIndex = n)
    (hget : st.filesB.get? (n % st.filesB.length) = some name) :
    contentB st = .ok ⟨"/static/b/" ++ name, isVideo name⟩ := by
  have hlen : st.filesB.length ≠ 0 := by
    intro h0
    rw [List.get?_eq_none.mpr (by omega)] at hget
    cases hget
  unfold contentB
  simp only [hidx, goMod_natCast n _ hlen, sliceIndex_natCast _ _ _ hget, bind, Except.bind,
    pure, Except.pure]

theorem isVideo_iff (name : String) :
    isVideo name = true ↔ filepathExt name ∈ [".mp4", ".webm", ".ogg"] := by
  simp [isVideo]

theorem isVideo_iff_lastDotSuffix (name : String) :
    isVideo name = true ↔ lastDotSuffix name ∈ [".mp4", ".webm", ".ogg"] := by
  rw [isVideo_iff]
  exact filepathExt_mem_iff name _ (by decide) (by decide)

theorem contentA_eq (st : State) :
    contentA st
      = (goMod st.currentIndex (st.filesA.length : Int) >>= fun i =>
          sliceIndex st.filesA i >>= fun fileName =>
            pure ⟨"/static/a/" ++ fileName, isVideo fileName⟩) := rfl

theorem contentB_eq (st : State) :
    contentB st
      = (goMod st.currentIndex (st.filesB.length : Int) >>= fun i =>
          sliceIndex st.filesB i >>= fun fileName =>
            pure ⟨"/static/b/" ++ fileName, isVideo fileName⟩) := rfl

theorem goMod_one (x : Int) : goMod x ((1 : Nat) : Int) = .ok 0 := by
  simp [goMod]

/-- C3, as the code has it: for every `N` below `2 ^ 63` and a non-empty
catalog of size `K`, after `N` advances from playhead 0 `contentA` (resp.
`contentB`) renders the identifier at index `N mod K` with source
`/static/a/` (resp. `/static/b/`) followed by it and the video flag
`isVideo` of it, which is true exactly for the extensions `.mp4`, `.webm`,
`.ogg`; and for `K = 1` every number of advances renders what playhead 0 renders. -/
theorem content_selects_index_mod (st : State) (N : Nat) (h0 : st.currentIndex = 0)
    (hN : N < 2 ^ 63) :
    (st.filesA ≠ [] → ∃ name, st.filesA.get? (N % st.filesA.length) = some name ∧
        contentA (advanceN N st) = .ok ⟨"/static/a/" ++ name, isVideo name⟩) ∧
      (st.filesB ≠ [] → ∃ name, st.filesB.get? (N % st.filesB.length) = some name ∧
        contentB (advanceN N st) = .ok ⟨"/static/b/" ++ name, isVideo name⟩) ∧
      (∀ name, isVideo name = true ↔ lastDotSuffix name ∈ [".mp4", ".webm", ".ogg"]) ∧
      (∀ M : Nat, st.filesA.length = 1 → contentA (advanceN M st) = contentA st) ∧
      (∀ M : Nat, st.filesB.length = 1 → contentB (advanceN M st) = contentB st) := by
  refine ⟨?_, ?_, isVideo_iff_lastDotSuffix, ?_, ?_⟩
  · intro hA
    obtain ⟨name, hname⟩ := get?_mod_of_ne_nil st.filesA N hA
    refine ⟨name, hname, ?_⟩
    apply contentA_of_natCast _ N name (advanceN_small st h0 N hN)
    rw [advanceN_filesA]; exact hname
  · intro hB
    obtain ⟨name, hname⟩ := get?_mod_of_ne_nil st.filesB N hB
    refine ⟨name, hname, ?_⟩
    apply contentB_of_natCast _ N name (advanceN_small st h0 N hN)
    rw [advanceN_filesB]; exact hname
  · intro M hK
    rw [contentA_eq, contentA_eq, advanceN_filesA, hK, goMod_one, goMod_one]
  · intro M hK
    rw [contentB_eq, contentB_eq, advanceN_filesB, hK, goMod_one, goMod_one]

theorem content_selects_index_mod_witness :
    scenarioInit.currentIndex = 0 ∧ 5 < 2 ^ 63 ∧ scenarioInit.filesA ≠ [] ∧
      ∃ name, scenarioInit.filesA.get? (5 % scenarioInit.filesA.length) = some name ∧
        contentA (advanceN 5 scenarioInit) = .ok ⟨"/static/a/" ++ name, isVideo name⟩ :=
  ⟨rfl, by decide, by decide,
   (content_selects_index_mod scenarioInit 5 rfl (by decide)).1 (by decide)⟩

/-- C3 fails as stated: with three items in catalog A, after `2 ^ 63` advances
from 0 the claim selects index `2 ^ 63 mod 3 = 2`, the item `c.png`, while
`contentA` computes the index `-2` and panics on the catalog lookup. -/
theorem contentA_panics_after_wrap :
    scenarioThree.currentIndex = 0 ∧ scenarioThree.filesA.length = 3 ∧
      scenarioThree.filesA.get? (2 ^ 63 % 3) = some "c.png" ∧
      goMod (advanceN (2 ^ 63) scenarioThree).currentIndex 3 = .ok (-2) ∧
      contentA (advanceN (2 ^ 63) scenarioThree) = .error .indexOutOfRange := by
  have h : (advanceN (2 ^ 63) scenarioThree).currentIndex = -9223372036854775808 := by
    rw [advanceN_currentIndex scenarioThree rfl, wrapInt_eq]; decide
  refine ⟨rfl, rfl, by decide, ?_, ?_⟩
  · rw [h]; rfl
  · rw [contentA_eq, h, advanceN_filesA]; rfl

/-- C10, as the code has it: with both catalogs non-empty, after any number
`N < 2 ^ 63` of advances from playhead 0 the playhead is not negative, the
index `idx % len(files)` computed by `contentA` and by `contentB` lies in
`0 .. len(files) - 1`, and neither handler panics. -/
theorem index_in_bounds_before_wrap (st : State) (N : Nat) (h0 : st.currentIndex = 0)
    (hN : N < 2 ^ 63) (hA : st.filesA ≠ []) (hB : st.filesB ≠ []) :
    0 ≤ (advanceN N st).currentIndex ∧
      (∃ i, goMod (advanceN N st).currentIndex ((advanceN N st).filesA.length : Int) = .ok i ∧
        0 ≤ i ∧ i < ((advanceN N st).filesA.length : Int)) ∧
      (∃ i, goMod (advanceN N st).currentIndex ((advanceN N st).filesB.length : Int) = .ok i ∧
        0 ≤ i ∧ i < ((advanceN N st).filesB.length : Int)) ∧
      (∃ d, contentA (advanceN N st) = .ok d) ∧
      (∃ d, contentB (advanceN N st) = .ok d) := by
  have hidx := advanceN_small st h0 N hN
  have hlenA : st.filesA.length ≠ 0 := fun h => hA (List.length_eq_zero.mp h)
  have hlenB : st.filesB.length ≠ 0 := fun h => hB (List.length_eq_zero.mp h)
  refine ⟨by rw [hidx]; exact Int.ofNat_nonneg N, ?_, ?_, ?_, ?_⟩
  · refine ⟨((N % st.filesA.length : Nat) : Int), ?_, Int.ofNat_nonneg _, ?_⟩
    · rw [hidx, advanceN_filesA, goMod_natCast N _ hlenA]
    · rw [advanceN_filesA]
      exact_mod_cast Nat.mod_lt N (Nat.pos_of_ne_zero hlenA)
  · refine ⟨((N % st.filesB.length : Nat) : Int), ?_, Int.ofNat_nonneg _, ?_⟩
    · rw [hidx, advanceN_filesB, goMod_natCast N _ hlenB]
    · rw [advanceN_filesB]
      exact_mod_cast Nat.mod_lt N (Nat.pos_of_ne_zero hlenB)
  · obtain ⟨name, hname⟩ := get?_mod_of_ne_nil st.filesA N hA
    exact ⟨_, contentA_of_natCast _ N name hidx (by rw [advanceN_filesA]; exact hname)⟩
  · obtain ⟨name, hname⟩ := get?_mod_of_ne_nil st.filesB N hB
    exact ⟨_, contentB_of_natCast _ N name hidx (by rw [advanceN_filesB]; exact hname)⟩

theorem index_in_bounds_before_wrap_witness :
    scenarioInit.currentIndex = 0 ∧ scenarioInit.filesA ≠ [] ∧ scenarioInit.filesB ≠ [] ∧
      0 ≤ (advanceN 7 scenarioInit).currentIndex ∧
      (∃ d, contentA (advanceN 7 scenarioInit) = .ok d) :=
  ⟨rfl, by decide, by decide,
   (index_in_bounds_before_wrap scenarioInit 7 rfl (by decide) (by decide) (by decide)).1,
   (index_in_bounds_before_wrap scenarioInit 7 rfl (by decide) (by decide) (by decide)).2.2.2.1⟩

/-- C10 fails as stated: with the catalogs `[a.jpg, b.mp4]` and `[x.png]`,
after `2 ^ 63 + 1` advances from 0 the playhead is negative, `idx % len(filesA)`
is `-1`, outside `0 .. 1`, and the lookup in `contentA` panics. -/
theorem index_out_of_bounds_after_wrap :
    scenarioInit.currentIndex = 0 ∧ scenarioInit.filesA.length = 2 ∧
      scenarioInit.filesB.length = 1 ∧
      (advanceN (2 ^ 63 + 1) scenarioInit).currentIndex < 0 ∧
      goMod (advanceN (2 ^ 63 + 1) scenarioInit).currentIndex
        ((advanceN (2 ^ 63 + 1) scenarioInit).filesA.length : Int) = .ok (-1) ∧
      contentA (advanceN (2 ^ 63 + 1) scenarioInit) = .error .indexOutOfRange := by
  have h : (advanceN (2 ^ 63 + 1) scenarioInit).currentIndex = -9223372036854775807 := by
    rw [advanceN_currentIndex scenarioInit rfl, wrapInt_eq]; decide
  refine ⟨rfl, rfl, rfl, ?_, ?_, ?_⟩
  · rw [h]; decide
  · rw [h, advanceN_filesA]; rfl
  · rw [contentA_eq, h, advanceN_filesA]; rfl

/-! ## The advance handler -/

/-- C4, as the code has it: `advanceHandler` answers 405 exactly when the
method is not `POST`, and then returns the state it was given (playhead,
registry and every queue included); on `POST` it always answers 200 with an
empty body; when the playhead is an `int` below the largest one, the state is
that of `broadcastSSE "mediaChanged"` run after the playhead was raised by 1;
and when the playhead is the largest `int`, the broadcast runs after the
playhead wrapped to the smallest `int`. -/
theorem advanceHandler_contract (method : String) (st : State) :
    ((advanceHandler method st).1.status = 405 ↔ method ≠ "POST") ∧
      (method ≠ "POST" → (advanceHandler method st).2 = st) ∧
      (method = "POST" → (advanceHandler method st).1 = ⟨200, ""⟩) ∧
      (method = "POST" → minInt ≤ st.currentIndex → st.currentIndex < maxInt →
        (advanceHandler method st).2
          = broadcastSSE "mediaChanged" { st with currentIndex := st.currentIndex + 1 }) ∧
      (method = "POST" → st.currentIndex = maxInt →
        (advanceHandler method st).2
          = broadcastSSE "mediaChanged" { st with currentIndex := minInt }) := by
  by_cases hm : method = "POST"
  · subst hm
    rw [advanceHandler_post]
    refine ⟨by simp, fun h => absurd rfl h, fun _ => rfl, ?_, ?_⟩
    · intro _ hlo hhi
      have hlo2 : -9223372036854775808 ≤ st.currentIndex := by
        simpa [minInt, intBits] using hlo
      have hhi2 : st.currentIndex < 9223372036854775807 := by
        simpa [maxInt, intBits] using hhi
      have hinc : intInc st.currentIndex = st.currentIndex + 1 :=
        wrapInt_of_inRange _ (by omega) (by omega)
      show broadcastSSE "mediaChanged" { st with currentIndex := intInc st.currentIndex } = _
      rw [hinc]
    · intro _ hmax
      have hinc : intInc st.currentIndex = minInt := by
        rw [hmax, intInc, wrapInt_eq]
        simp only [maxInt, minInt, intBits]
        norm_num
      show broadcastSSE "mediaChanged" { st with currentIndex := intInc st.currentIndex } = _
      rw [hinc]
  · have hres : advanceHandler method st = (⟨405, "Method Not Allowed\n"⟩, st) := by
      simp [advanceHandler, hm]
    rw [hres]
    exact ⟨by simp [hm], fun _ => rfl, fun h => absurd h hm, fun h => absurd h hm,
      fun h => absurd h hm⟩

theorem advanceHandler_contract_witness :
    "GET" ≠ "POST" ∧ (advanceHandler "GET" scenarioConnected).2 = scenarioConnected ∧
      (advanceHandler "POST" scenarioConnected).1 = ⟨200, ""⟩ ∧
      minInt ≤ scenarioConnected.currentIndex ∧ scenarioConnected.currentIndex < maxInt ∧
      (advanceHandler "POST" scenarioConnected).2
        = broadcastSSE "mediaChanged"
            { scenarioConnected with currentIndex := scenarioConnected.currentIndex + 1 } ∧
      scenarioMaxInt.currentIndex = maxInt ∧
      (advanceHandler "POST" scenarioMaxInt).2
        = broadcastSSE "mediaChanged" { scenarioMaxInt with currentIndex := minInt } :=
  ⟨by decide,
   (advanceHandler_contract "GET" scenarioConnected).2.1 (by decide),
   (advanceHandler_contract "POST" scenarioConnected).2.2.1 rfl,
   by decide, by decide,
   (advanceHandler_contract "POST" scenarioConnected).2.2.2.1 rfl (by decide) (by decide),
   by decide,
   (advanceHandler_contract "POST" scenarioMaxInt).2.2.2.2 rfl (by decide)⟩

/-- C4 fails as stated: in the state reached by `2 ^ 63 - 1` advances the
playhead is the largest `int`; a `POST` is answered 200 and the playhead
becomes `-2 ^ 63`, which is not the old value plus 1. -/
theorem advanceHandler_wraps_at_maxInt :
    (advanceN (2 ^ 63 - 1) scenarioConnected).currentIndex = scenarioMaxInt.currentIndex ∧
      scenarioMaxInt.currentIndex = 9223372036854775807 ∧
      (advanceHandler "POST" scenarioMaxInt).1 = ⟨200, ""⟩ ∧
      (advanceHandler "POST" scenarioMaxInt).2.currentIndex = -9223372036854775808 ∧
      (advanceHandler "POST" scenarioMaxInt).2.currentIndex
        ≠ scenarioMaxInt.currentIndex + 1 := by
  have hreach : (advanceN (2 ^ 63 - 1) scenarioConnected).currentIndex
      = 9223372036854775807 := by
    rw [advanceN_currentIndex scenarioConnected rfl, wrapInt_eq]; decide
  have hpost : (advanceHandler "POST" scenarioMaxInt).2.currentIndex
      = -9223372036854775808 := by
    rw [advanceHandler_post]
    show intInc 9223372036854775807 = -9223372036854775808
    rw [intInc, wrapInt_eq]; decide
  refine ⟨hreach, rfl, ?_, hpost, ?_⟩
  · rw [advanceHandler_post]
  · rw [hpost]
    show (-9223372036854775808 : Int) ≠ 9223372036854775807 + 1
    decide

/-! ## The scenario -/

/-- C9: with catalogs `[a.jpg, b.mp4]` and `[x.png]`, playhead 0 and one
connected subscriber with an empty queue, `contentA` renders `/static/a/a.jpg`
and `contentB` renders `/static/b/x.png`, both as images; after one
`POST /advance` (answered 200) the playhead is 1, `contentA` renders
`/static/a/b.mp4` as a video, `contentB` still renders `/static/b/x.png`, and
the subscriber's queue holds the single label `mediaChanged`, which its loop
writes as `event: mediaChanged`, `data: mediaChanged` and an empty line,
leaving the queue empty. -/
theorem scenario_single_advance :
    scenarioConnected.currentIndex = 0 ∧
      scenarioConnected.filesA = ["a.jpg", "b.mp4"] ∧
      scenarioConnected.filesB = ["x.png"] ∧
      scenarioConnected.sseClients = {0} ∧
      scenarioConnected.chans 0 = ⟨10, []⟩ ∧
      contentA scenarioConnected = .ok ⟨"/static/a/a.jpg", false⟩ ∧
      contentB scenarioConnected = .ok ⟨"/static/b/x.png", false⟩ ∧
      (advanceHandler "POST" scenarioConnected).1 = ⟨200, ""⟩ ∧
      (advanceHandler "POST" scenarioConnected).2.currentIndex = 1 ∧
      contentA (advanceHandler "POST" scenarioConnected).2
        = .ok ⟨"/static/a/b.mp4", true⟩ ∧
      contentB (advanceHandler "POST" scenarioConnected).2
        = .ok ⟨"/static/b/x.png", false⟩ ∧
      (advanceHandler "POST" scenarioConnected).2.sseClients = {0} ∧
      ((advanceHandler "POST" scenarioConnected).2.chans 0).buf = ["mediaChanged"] ∧
      (sseHandlerRecv 0 (advanceHandler "POST" scenarioConnected).2).map
          (fun r => (r.1, r.2.1, (r.2.2.chans 0).buf))
        = some ("mediaChanged", "event: mediaChanged\ndata: mediaChanged\n\n", []) := by
  refine ⟨rfl, rfl, rfl, by decide, by decide, rfl, rfl, rfl, by decide, rfl, rfl,
    by decide, by decide, by decide⟩

/-! ## Reachable states -/

theorem HubInv_advanceHandler (method : String) (st : State) (h : HubInv st) :
    HubInv (advanceHandler method st).2 := by
  by_cases hm : method = "POST"
  · subst hm
    rw [advanceHandler_post]
    exact HubInv_broadcastSSE _ _ h
  · have hres : advanceHandler method st = (⟨405, "Method Not Allowed\n"⟩, st) := by
      simp [advanceHandler, hm]
    rw [hres]; exact h

theorem HubInv_sseHandlerConnect (flusherOk : Bool) (st : State) (h : HubInv st) :
    HubInv (sseHandlerConnect flusherOk st).2 := by
  cases flusherOk with
  | false => exact h
  | true =>
    intro c hc
    have hc2 : c = st.nextChan ∨ c ∈ st.sseClients := by
      simpa [sseHandlerConnect, makeChan, registerClient] using hc
    rcases hc2 with hc2 | hc2
    · subst hc2
      simp [sseHandlerConnect, makeChan, registerClient]
    · obtain ⟨h1, h2, h3⟩ := h c hc2
      have hne : c ≠ st.nextChan := Nat.ne_of_lt h1
      have hlt : c < st.nextChan + 1 := Nat.lt_succ_of_lt h1
      simpa [sseHandlerConnect, makeChan, registerClient, Function.update_noteq hne]
        using ⟨hlt, h2, h3⟩

theorem HubInv_sseHandlerCleanup (c : ChanId) (st : State) (h : HubInv st) :
    HubInv (sseHandlerCleanup c st) := by
  intro d hd
  have hd2 : d ∈ st.sseClients := Finset.mem_of_mem_erase hd
  exact h d hd2

theorem HubInv_step (st : State) (a : Action) (h : HubInv st) : HubInv (step st a) := by
  cases a with
  | advance method => exact HubInv_advanceHandler method st h
  | connect flusherOk => exact HubInv_sseHandlerConnect flusherOk st h
  | disconnect c => exact HubInv_sseHandlerCleanup c st h
  | recv c =>
    simp only [step, sseHandlerRecv, Chan.recv]
    cases hq : (st.chans c).buf with
    | nil => exact h
    | cons m rest =>
      intro d hd
      obtain ⟨h1, h2, h3⟩ := h d hd
      by_cases hdc : d = c
      · subst hdc
        simp only [Function.update_same]
        rw [hq] at h3
        exact ⟨h1, h2, by simp at h3 ⊢; omega⟩
      · simp only [Function.update_noteq hdc]
        exact ⟨h1, h2, h3⟩

theorem main_ok (readDir : String → List DirEntry × Option String) (st : State)
    (h : main readDir = .ok st) :
    st.currentIndex = 0 ∧ st.filesA ≠ [] ∧ st.filesB ≠ [] ∧ st.sseClients = ∅ ∧
      loadFiles readDir "./data/a" = .ok st.filesA ∧
      loadFiles readDir "./data/b" = .ok st.filesB := by
  unfold main at h
  cases ha : loadFiles readDir "./data/a" with
  | error e => rw [ha] at h; cases h
  | ok fa =>
    cases hb : loadFiles readDir "./data/b" with
    | error e => rw [ha, hb] at h; cases h
    | ok fb =>
      rw [ha, hb] at h
      simp only [] at h
      split at h
      · cases h
      · rename_i hne
        cases h
        simp only [not_or, List.length_eq_zero] at hne
        exact ⟨rfl, hne.1, hne.2, rfl, rfl, rfl⟩

theorem HubInv_reachable (st : State) (h : Reachable st) : HubInv st := by
  obtain ⟨readDir, s0, acts, hmain, rfl⟩ := h
  have h0 : HubInv s0 := by
    intro c hc
    rw [(main_ok readDir s0 hmain).2.2.2.1] at hc
    simp at hc
  clear hmain
  induction acts generalizing s0 with
  | nil => exact h0
  | cons a as ih => exact ih (step s0 a) (HubInv_step s0 a h0)

theorem sortStrings_scenario : sortStrings ["b.mp4", "a.jpg"] = ["a.jpg", "b.mp4"] := by
  simp [sortStrings, List.insertionSort, List.orderedInsert]
  decide

theorem loadFiles_scenarioA : loadFiles scenarioReadDir "./data/a" = .ok ["a.jpg", "b.mp4"] := by
  have hloop : loadFilesLoop
      [⟨"b.mp4", false⟩, ⟨"notes.txt", false⟩, ⟨"a.jpg", false⟩, ⟨"old.png", true⟩,
        ⟨"A.JPG", false⟩] = ["b.mp4", "a.jpg"] := by decide
  have hrd : scenarioReadDir "./data/a"
      = ([⟨"b.mp4", false⟩, ⟨"notes.txt", false⟩, ⟨"a.jpg", false⟩, ⟨"old.png", true⟩,
          ⟨"A.JPG", false⟩], none) := by decide
  simp only [loadFiles, hrd, hloop, sortStrings_scenario]

theorem loadFiles_scenarioB : loadFiles scenarioReadDir "./data/b" = .ok ["x.png"] := rfl

theorem main_scenario : main scenarioReadDir = .ok scenarioInit := by
  simp only [main, loadFiles_scenarioA, loadFiles_scenarioB]
  rfl

theorem scenarioConnected_reachable : Reachable scenarioConnected :=
  ⟨scenarioReadDir, scenarioInit, [.connect true], main_scenario, rfl⟩

end RapidMock
